import Mathlib

/-!
Verification of the "two sum" pair-finder utility
(`src/cpp/0001.two-sum/main.cpp`).

The C++ code exposes two static operations on a vector of ints:

* `Solution::twoSum`   — brute force: after a `size < 2` guard, two nested
  loops scan `i` from `0` to `size - 2` and `j` from `i + 1` to `size - 1`,
  returning `{i, j}` at the first pair with `nums[i] + nums[j] == target`.
* `Solution::twoSum2`  — indexed: after the same guard, a forward scan keeps a
  `std::map<int, int> cache` from seen value to its index; at position `i`
  with value `num` it first looks up `target - num` and, on a hit, returns
  `{cache[target - num], i}`; otherwise it `emplace`s `(num, i)` (which
  inserts only when the key is absent, retaining the earliest index).

The embedding below models the vector as a `List Int`, indices as `Nat`,
the loops as structural recursion over explicit index lists
(`List.range` / `List.range'`), and the `std::map` as an association list
whose lookup returns the first matching entry and whose emplace inserts only
when the key is absent — exactly matching `std::map::find` / `emplace`.
Element access `nums[i]` is modelled with `List.getD` (every access the code
performs is proved in bounds separately, via an `Option`-checked variant).
-/

namespace TwoSum

/-- The inner `j` loop of `Solution::twoSum`: scan the index list `js`
(left to right) and return the first `j` with
`nums[i] + nums[j] == target`, or `none` when the loop falls through. -/
def innerScan (nums : List Int) (target : Int) (i : Nat) : List Nat → Option Nat
  | [] => none
  | j :: js =>
    if nums.getD i 0 + nums.getD j 0 = target then some j
    else innerScan nums target i js

/-- The outer `i` loop of `Solution::twoSum`: for each `i` in the index list,
run the inner loop over `j ∈ [i+1, nums.length)`; return the first hit. -/
def outerScan (nums : List Int) (target : Int) : List Nat → Option (Nat × Nat)
  | [] => none
  | i :: is =>
    match innerScan nums target i (List.range' (i + 1) (nums.length - (i + 1))) with
    | some j => some (i, j)
    | none => outerScan nums target is

/-- Embedding of `Solution::twoSum` (brute force).  Guard `nums.size() < 2` returns `{}`;
otherwise the nested loops scan `0 ≤ i < size - 1`, `i + 1 ≤ j < size` and
return `{i, j}` at the first matching pair, else `{}`. -/
def twoSum (nums : List Int) (target : Int) : List Nat :=
  if nums.length < 2 then []
  else
    match outerScan nums target (List.range (nums.length - 1)) with
    | some (i, j) => [i, j]
    | none => []

/-- Model of `std::map::find` on the scratch mapping, modelled as an association
list: the first entry with the given key, if any. -/
def mapFind (cache : List (Int × Nat)) (key : Int) : Option Nat :=
  (cache.find? (fun p => p.1 == key)).map Prod.snd

/-- Model of `std::map::emplace` on the scratch mapping: insert `(key, val)` only
when `key` is not already present, so the earliest index for a repeated
value is retained. -/
def mapEmplace (cache : List (Int × Nat)) (key : Int) (val : Nat) : List (Int × Nat) :=
  if (mapFind cache key).isSome then cache else (key, val) :: cache

/-- The scan loop of `Solution::twoSum2`: for each position `i` (taken from
the index list) with value `num = nums[i]`, look up `target - num` in the
cache; on a hit at stored index `idx` return `{idx, i}`, otherwise emplace
`(num, i)` and continue. -/
def twoSum2Aux (nums : List Int) (target : Int) :
    List Nat → List (Int × Nat) → List Nat
  | [], _ => []
  | i :: is, cache =>
    let num := nums.getD i 0
    match mapFind cache (target - num) with
    | some idx => [idx, i]
    | none => twoSum2Aux nums target is (mapEmplace cache num i)

/-- Embedding of `Solution::twoSum2` (indexed).  Guard `nums.size() < 2` returns `{}`;
otherwise scan positions `0 ≤ i < size` with an initially empty cache. -/
def twoSum2 (nums : List Int) (target : Int) : List Nat :=
  if nums.length < 2 then []
  else twoSum2Aux nums target (List.range nums.length) []

/-!
### State-threaded variants

The C++ signatures take `nums` by (non-const) reference, so mutation would
be visible to the caller.  To show the operations are pure with respect to
the sequence, we thread the vector through every access the code performs:
`readNth` models `operator[]` (a read, returning the vector unchanged), and
each loop passes the resulting vector state along.  The theorems below show
the final state equals the initial sequence and the result is the pure
function of `(nums, target)`.
-/

/-- A read `nums[i]` threaded through the vector state: `operator[]` on a
vector returns a value and leaves the vector unchanged. -/
def readNth (s : List Int) (i : Nat) : Int × List Int := (s.getD i 0, s)

/-- State-threaded inner loop of `Solution::twoSum`. -/
def innerScanSt (target : Int) (i : Nat) : List Nat → List Int → Option Nat × List Int
  | [], s => (none, s)
  | j :: js, s =>
    let r1 := readNth s i
    let r2 := readNth r1.2 j
    if r1.1 + r2.1 = target then (some j, r2.2)
    else innerScanSt target i js r2.2

/-- State-threaded outer loop of `Solution::twoSum`. -/
def outerScanSt (target : Int) : List Nat → List Int → Option (Nat × Nat) × List Int
  | [], s => (none, s)
  | i :: is, s =>
    match innerScanSt target i (List.range' (i + 1) (s.length - (i + 1))) s with
    | (some j, s1) => (some (i, j), s1)
    | (none, s1) => outerScanSt target is s1

/-- State-threaded `Solution::twoSum`: returns the result together with the
state of the vector when the call returns. -/
def twoSumSt (nums : List Int) (target : Int) : List Nat × List Int :=
  if nums.length < 2 then ([], nums)
  else
    match outerScanSt target (List.range (nums.length - 1)) nums with
    | (some (i, j), s) => ([i, j], s)
    | (none, s) => ([], s)

/-- State-threaded scan loop of `Solution::twoSum2`. -/
def twoSum2AuxSt (target : Int) :
    List Nat → List (Int × Nat) → List Int → List Nat × List Int
  | [], _, s => ([], s)
  | i :: is, cache, s =>
    let r := readNth s i
    match mapFind cache (target - r.1) with
    | some idx => ([idx, i], r.2)
    | none => twoSum2AuxSt target is (mapEmplace cache r.1 i) r.2

/-- State-threaded `Solution::twoSum2`. -/
def twoSum2St (nums : List Int) (target : Int) : List Nat × List Int :=
  if nums.length < 2 then ([], nums)
  else twoSum2AuxSt target (List.range nums.length) [] nums

/-!
### Checked variants

`Option`-checked embeddings in which every `operator[]` access is performed
with `l[i]?`: an out-of-bounds access surfaces as the outer `none`, so
proving the checked run equals `some` of the unchecked run shows every
access the code performs is in bounds.
-/

/-- Checked inner loop of `Solution::twoSum`. -/
def innerScanC (nums : List Int) (target : Int) (i : Nat) :
    List Nat → Option (Option Nat)
  | [] => some none
  | j :: js =>
    match nums[i]?, nums[j]? with
    | some vi, some vj =>
      if vi + vj = target then some (some j) else innerScanC nums target i js
    | _, _ => none

/-- Checked outer loop of `Solution::twoSum`. -/
def outerScanC (nums : List Int) (target : Int) :
    List Nat → Option (Option (Nat × Nat))
  | [] => some none
  | i :: is =>
    match innerScanC nums target i (List.range' (i + 1) (nums.length - (i + 1))) with
    | some (some j) => some (some (i, j))
    | some none => outerScanC nums target is
    | none => none

/-- Checked `Solution::twoSum`. -/
def twoSumChecked (nums : List Int) (target : Int) : Option (List Nat) :=
  if nums.length < 2 then some []
  else
    match outerScanC nums target (List.range (nums.length - 1)) with
    | some (some (i, j)) => some [i, j]
    | some none => some []
    | none => none

/-- Checked scan loop of `Solution::twoSum2`. -/
def twoSum2AuxC (nums : List Int) (target : Int) :
    List Nat → List (Int × Nat) → Option (List Nat)
  | [], _ => some []
  | i :: is, cache =>
    match nums[i]? with
    | none => none
    | some num =>
      match mapFind cache (target - num) with
      | some idx => some [idx, i]
      | none => twoSum2AuxC nums target is (mapEmplace cache num i)

/-- Checked `Solution::twoSum2`. -/
def twoSum2Checked (nums : List Int) (target : Int) : Option (List Nat) :=
  if nums.length < 2 then some []
  else twoSum2AuxC nums target (List.range nums.length) []

/-- A valid answer to the two-sum problem: two in-bounds positions
`i < j` whose values sum to the target. -/
def IsPair (nums : List Int) (target : Int) (i j : Nat) : Prop :=
  i < j ∧ j < nums.length ∧ nums.getD i 0 + nums.getD j 0 = target

instance (nums : List Int) (target : Int) (i j : Nat) :
    Decidable (IsPair nums target i j) := by
  unfold IsPair; infer_instance

/-! ### Soundness of the scan loops -/

theorem innerScan_sound (nums : List Int) (target : Int) (i : Nat) (js : List Nat)
    (j : Nat) (h : innerScan nums target i js = some j) :
    j ∈ js ∧ nums.getD i 0 + nums.getD j 0 = target := by
  induction js with
  | nil => simp [innerScan] at h
  | cons j0 js ih =>
    by_cases hc : nums.getD i 0 + nums.getD j0 0 = target
    · rw [innerScan, if_pos hc] at h
      cases h
      exact ⟨List.mem_cons_self _ _, hc⟩
    · rw [innerScan, if_neg hc] at h
      obtain ⟨hm, hs⟩ := ih h
      exact ⟨List.mem_cons_of_mem _ hm, hs⟩

theorem outerScan_sound (nums : List Int) (target : Int) (is : List Nat)
    (i j : Nat) (h : outerScan nums target is = some (i, j)) :
    i ∈ is ∧ j ∈ List.range' (i + 1) (nums.length - (i + 1)) ∧
      nums.getD i 0 + nums.getD j 0 = target := by
  induction is with
  | nil => simp [outerScan] at h
  | cons i0 is ih =>
    rw [outerScan] at h
    cases hin : innerScan nums target i0 (List.range' (i0 + 1) (nums.length - (i0 + 1))) with
    | some j0 =>
      rw [hin] at h
      cases h
      obtain ⟨hm, hs⟩ := innerScan_sound _ _ _ _ _ hin
      exact ⟨List.mem_cons_self _ _, hm, hs⟩
    | none =>
      rw [hin] at h
      obtain ⟨hm, h2⟩ := ih h
      exact ⟨List.mem_cons_of_mem _ hm, h2⟩

theorem twoSum_sound (nums : List Int) (target : Int) (i j : Nat)
    (h : twoSum nums target = [i, j]) : IsPair nums target i j := by
  unfold twoSum at h
  by_cases hlen : nums.length < 2
  · rw [if_pos hlen] at h; cases h
  · rw [if_neg hlen] at h
    cases ho : outerScan nums target (List.range (nums.length - 1)) with
    | none => rw [ho] at h; cases h
    | some p =>
      obtain ⟨i0, j0⟩ := p
      rw [ho] at h
      cases h
      obtain ⟨hi, hj, hs⟩ := outerScan_sound _ _ _ _ _ ho
      have hi' : i < nums.length - 1 := List.mem_range.mp hi
      have hj' : i + 1 ≤ j ∧ j < i + 1 + (nums.length - (i + 1)) :=
        List.mem_range'_1.mp hj
      refine ⟨?_, ?_, hs⟩ <;> omega

/-- A `mapFind` hit names an entry stored in the cache: it hits only entries stored in the cache, with the looked-up key. -/
theorem mapFind_mem (cache : List (Int × Nat)) (key : Int) (idx : Nat)
    (h : mapFind cache key = some idx) : (key, idx) ∈ cache := by
  unfold mapFind at h
  cases hf : cache.find? (fun p => p.1 == key) with
  | none => rw [hf] at h; cases h
  | some p =>
    rw [hf] at h
    cases h
    have hp : p.1 = key := by simpa using List.find?_some hf
    have hm := List.mem_of_find?_eq_some hf
    have : p = (key, p.2) := by rw [← hp]
    rwa [← this]

theorem twoSum2Aux_sound (nums : List Int) (target : Int) (is : List Nat) :
    ∀ (cache : List (Int × Nat)) (i j : Nat),
      (∀ k ∈ is, k < nums.length) →
      is.Pairwise (· < ·) →
      (∀ p ∈ cache, p.2 < nums.length ∧ nums.getD p.2 0 = p.1 ∧ ∀ k ∈ is, p.2 < k) →
      twoSum2Aux nums target is cache = [i, j] →
      IsPair nums target i j := by
  induction is with
  | nil => intro cache i j _ _ _ h; simp [twoSum2Aux] at h
  | cons i0 is ih =>
    intro cache i j hbound hpair hcache h
    rw [twoSum2Aux] at h
    cases hf : mapFind cache (target - nums.getD i0 0) with
    | some idx =>
      rw [hf] at h
      cases h
      obtain ⟨hlt, hval, hbefore⟩ := hcache _ (mapFind_mem _ _ _ hf)
      refine ⟨hbefore i0 (List.mem_cons_self _ _), hbound i0 (List.mem_cons_self _ _), ?_⟩
      rw [hval]; ring
    | none =>
      rw [hf] at h
      refine ih _ i j (fun k hk => hbound k (List.mem_cons_of_mem _ hk))
        (List.Pairwise.sublist (List.sublist_cons_self _ _) hpair) ?_ h
      intro p hp
      unfold mapEmplace at hp
      by_cases hnum : (mapFind cache (nums.getD i0 0)).isSome = true
      · rw [if_pos hnum] at hp
        obtain ⟨h1, h2, h3⟩ := hcache _ hp
        exact ⟨h1, h2, fun k hk => h3 k (List.mem_cons_of_mem _ hk)⟩
      · rw [if_neg hnum] at hp
        rcases List.mem_cons.mp hp with hnew | hold
        · subst hnew
          refine ⟨hbound i0 (List.mem_cons_self _ _), rfl, ?_⟩
          intro k hk
          exact (List.pairwise_cons.mp hpair).1 k hk
        · obtain ⟨h1, h2, h3⟩ := hcache _ hold
          exact ⟨h1, h2, fun k hk => h3 k (List.mem_cons_of_mem _ hk)⟩

theorem twoSum2_sound (nums : List Int) (target : Int) (i j : Nat)
    (h : twoSum2 nums target = [i, j]) : IsPair nums target i j := by
  unfold twoSum2 at h
  by_cases hlen : nums.length < 2
  · rw [if_pos hlen] at h; cases h
  · rw [if_neg hlen] at h
    exact twoSum2Aux_sound nums target _ [] i j
      (fun k hk => List.mem_range.mp hk)
      (List.pairwise_lt_range _)
      (fun p hp => absurd hp (List.not_mem_nil p)) h

/-! ### Completeness of the scan loops -/

theorem innerScan_eq_none (nums : List Int) (target : Int) (i : Nat) (js : List Nat)
    (h : innerScan nums target i js = none) :
    ∀ j ∈ js, nums.getD i 0 + nums.getD j 0 ≠ target := by
  induction js with
  | nil => intro j hj; exact absurd hj (List.not_mem_nil j)
  | cons j0 js ih =>
    intro j hj
    by_cases hc : nums.getD i 0 + nums.getD j0 0 = target
    · rw [innerScan, if_pos hc] at h; cases h
    · rw [innerScan, if_neg hc] at h
      rcases List.mem_cons.mp hj with rfl | hj'
      · exact hc
      · exact ih h j hj'

theorem outerScan_eq_none (nums : List Int) (target : Int) (is : List Nat)
    (h : outerScan nums target is = none) :
    ∀ i ∈ is, ∀ j ∈ List.range' (i + 1) (nums.length - (i + 1)),
      nums.getD i 0 + nums.getD j 0 ≠ target := by
  induction is with
  | nil => intro i hi; exact absurd hi (List.not_mem_nil i)
  | cons i0 is ih =>
    intro i hi j hj
    rw [outerScan] at h
    cases hin : innerScan nums target i0 (List.range' (i0 + 1) (nums.length - (i0 + 1))) with
    | some j0 => rw [hin] at h; cases h
    | none =>
      rw [hin] at h
      rcases List.mem_cons.mp hi with rfl | hi'
      · exact innerScan_eq_none _ _ _ _ hin j hj
      · exact ih h i hi' j hj

/-- The brute-force result is either empty or a two-element list. -/
theorem twoSum_shape (nums : List Int) (target : Int) :
    twoSum nums target = [] ∨ ∃ i j, twoSum nums target = [i, j] := by
  unfold twoSum
  by_cases hlen : nums.length < 2
  · rw [if_pos hlen]; exact Or.inl rfl
  · rw [if_neg hlen]
    cases ho : outerScan nums target (List.range (nums.length - 1)) with
    | none => exact Or.inl rfl
    | some p => exact Or.inr ⟨p.1, p.2, rfl⟩

theorem twoSum_ne_nil_iff (nums : List Int) (target : Int) :
    twoSum nums target ≠ [] ↔ ∃ i j, IsPair nums target i j := by
  constructor
  · intro h
    rcases twoSum_shape nums target with hnil | ⟨i, j, hij⟩
    · exact absurd hnil h
    · exact ⟨i, j, twoSum_sound nums target i j hij⟩
  · rintro ⟨i, j, hij, hjn, hsum⟩
    have hlen : ¬ nums.length < 2 := by omega
    unfold twoSum
    rw [if_neg hlen]
    cases ho : outerScan nums target (List.range (nums.length - 1)) with
    | some p => obtain ⟨i0, j0⟩ := p; simp
    | none =>
      exfalso
      refine outerScan_eq_none nums target _ ho i ?_ j ?_ hsum
      · exact List.mem_range.mpr (by omega)
      · exact List.mem_range'_1.mpr (by omega)

/-- Evaluating `mapFind` on a cons: the head entry shadows the tail when its key
matches. -/
theorem mapFind_cons (q : Int × Nat) (cache : List (Int × Nat)) (key : Int) :
    mapFind (q :: cache) key = if q.1 = key then some q.2 else mapFind cache key := by
  by_cases h : q.1 = key
  · rw [if_pos h]
    unfold mapFind
    rw [List.find?_cons_of_pos _ (by simpa using h)]
    rfl
  · rw [if_neg h]
    unfold mapFind
    rw [List.find?_cons_of_neg _ (by simpa using h)]

/-- Keys present in the cache survive an emplace. -/
theorem mapFind_emplace_isSome (cache : List (Int × Nat)) (k k' : Int) (v : Nat)
    (h : (mapFind cache k).isSome) : (mapFind (mapEmplace cache k' v) k).isSome := by
  unfold mapEmplace
  by_cases hp : (mapFind cache k').isSome = true
  · rwa [if_pos hp]
  · rw [if_neg hp, mapFind_cons]
    by_cases hk : k' = k
    · rw [if_pos hk]; rfl
    · rwa [if_neg hk]

/-- After an emplace of key `k`, key `k` is present. -/
theorem mapFind_emplace_self_isSome (cache : List (Int × Nat)) (k : Int) (v : Nat) :
    (mapFind (mapEmplace cache k v) k).isSome := by
  unfold mapEmplace
  by_cases hp : (mapFind cache k).isSome = true
  · rwa [if_pos hp]
  · rw [if_neg hp, mapFind_cons, if_pos rfl]
    rfl

theorem twoSum2Aux_ne_nil (nums : List Int) (target : Int) (is : List Nat) :
    ∀ cache : List (Int × Nat),
      is.Pairwise (· < ·) →
      ((∃ b ∈ is, (mapFind cache (target - nums.getD b 0)).isSome) ∨
        (∃ a b, a ∈ is ∧ b ∈ is ∧ a < b ∧
          nums.getD a 0 + nums.getD b 0 = target)) →
      twoSum2Aux nums target is cache ≠ [] := by
  induction is with
  | nil =>
    intro cache _ hex
    rcases hex with ⟨b, hb, _⟩ | ⟨a, b, ha, _, _, _⟩
    · exact absurd hb (List.not_mem_nil b)
    · exact absurd ha (List.not_mem_nil a)
  | cons i0 is ih =>
    intro cache hpair hex
    rw [twoSum2Aux]
    cases hf : mapFind cache (target - nums.getD i0 0) with
    | some idx => simp
    | none =>
      show twoSum2Aux nums target is (mapEmplace cache (nums.getD i0 0) i0) ≠ []
      refine ih _ (List.Pairwise.sublist (List.sublist_cons_self _ _) hpair) ?_
      have hhead : ∀ k ∈ is, i0 < k := (List.pairwise_cons.mp hpair).1
      rcases hex with ⟨b, hb, hsome⟩ | ⟨a, b, ha, hb, hab, hsum⟩
      · rcases List.mem_cons.mp hb with rfl | hb'
        · rw [hf] at hsome; cases hsome
        · exact Or.inl ⟨b, hb', mapFind_emplace_isSome _ _ _ _ hsome⟩
      · rcases List.mem_cons.mp ha with rfl | ha'
        · have hb' : b ∈ is := by
            rcases List.mem_cons.mp hb with rfl | hb'
            · omega
            · exact hb'
          refine Or.inl ⟨b, hb', ?_⟩
          have hkey : target - nums.getD b 0 = nums.getD a 0 := by omega
          rw [hkey]
          exact mapFind_emplace_self_isSome _ _ _
        · have hb' : b ∈ is := by
            rcases List.mem_cons.mp hb with rfl | hb'
            · exact absurd (hhead a ha') (by omega)
            · exact hb'
          exact Or.inr ⟨a, b, ha', hb', hab, hsum⟩

/-- The indexed-scan result is either empty or a two-element list. -/
theorem twoSum2Aux_shape (nums : List Int) (target : Int) (is : List Nat) :
    ∀ cache : List (Int × Nat),
      twoSum2Aux nums target is cache = [] ∨
        ∃ i j, twoSum2Aux nums target is cache = [i, j] := by
  induction is with
  | nil => intro cache; exact Or.inl rfl
  | cons i0 is ih =>
    intro cache
    rw [twoSum2Aux]
    cases hf : mapFind cache (target - nums.getD i0 0) with
    | some idx => exact Or.inr ⟨idx, i0, rfl⟩
    | none => exact ih _

theorem twoSum2_shape (nums : List Int) (target : Int) :
    twoSum2 nums target = [] ∨ ∃ i j, twoSum2 nums target = [i, j] := by
  unfold twoSum2
  by_cases hlen : nums.length < 2
  · rw [if_pos hlen]; exact Or.inl rfl
  · rw [if_neg hlen]; exact twoSum2Aux_shape nums target _ []

theorem twoSum2_ne_nil_iff (nums : List Int) (target : Int) :
    twoSum2 nums target ≠ [] ↔ ∃ i j, IsPair nums target i j := by
  constructor
  · intro h
    rcases twoSum2_shape nums target with hnil | ⟨i, j, hij⟩
    · exact absurd hnil h
    · exact ⟨i, j, twoSum2_sound nums target i j hij⟩
  · rintro ⟨i, j, hij, hjn, hsum⟩
    have hlen : ¬ nums.length < 2 := by omega
    unfold twoSum2
    rw [if_neg hlen]
    refine twoSum2Aux_ne_nil nums target _ [] (List.pairwise_lt_range _) ?_
    exact Or.inr ⟨i, j, List.mem_range.mpr (by omega), List.mem_range.mpr hjn, hij, hsum⟩

/-! ### First-hit minimality of the brute-force scan -/

theorem innerScan_min (nums : List Int) (target : Int) (i : Nat) (js : List Nat)
    (j : Nat) (hsorted : js.Pairwise (· < ·))
    (h : innerScan nums target i js = some j) :
    ∀ j' ∈ js, nums.getD i 0 + nums.getD j' 0 = target → j ≤ j' := by
  induction js with
  | nil => simp [innerScan] at h
  | cons j0 js ih =>
    intro j' hj' hsum
    by_cases hc : nums.getD i 0 + nums.getD j0 0 = target
    · rw [innerScan, if_pos hc] at h
      cases h
      rcases List.mem_cons.mp hj' with rfl | hin
      · exact Nat.le_refl _
      · exact Nat.le_of_lt ((List.pairwise_cons.mp hsorted).1 j' hin)
    · rw [innerScan, if_neg hc] at h
      rcases List.mem_cons.mp hj' with rfl | hin
      · exact absurd hsum hc
      · exact ih (List.Pairwise.sublist (List.sublist_cons_self _ _) hsorted) h j' hin hsum

theorem outerScan_min (nums : List Int) (target : Int) (is : List Nat)
    (i j : Nat) (hsorted : is.Pairwise (· < ·))
    (h : outerScan nums target is = some (i, j)) :
    ∀ i' j', i' ∈ is → IsPair nums target i' j' →
      i < i' ∨ (i = i' ∧ j ≤ j') := by
  induction is with
  | nil => simp [outerScan] at h
  | cons i0 is ih =>
    intro i' j' hi' hp
    obtain ⟨hij', hj'n, hsum'⟩ := hp
    rw [outerScan] at h
    cases hin : innerScan nums target i0 (List.range' (i0 + 1) (nums.length - (i0 + 1))) with
    | some j0 =>
      rw [hin] at h
      cases h
      rcases List.mem_cons.mp hi' with rfl | hmem
      · refine Or.inr ⟨rfl, ?_⟩
        refine innerScan_min nums target i' _ j
          (List.pairwise_lt_range' _ _) hin j' ?_ hsum'
        exact List.mem_range'_1.mpr (by omega)
      · exact Or.inl ((List.pairwise_cons.mp hsorted).1 i' hmem)
    | none =>
      rw [hin] at h
      rcases List.mem_cons.mp hi' with rfl | hmem
      · exfalso
        refine innerScan_eq_none nums target i' _ hin j' ?_ hsum'
        exact List.mem_range'_1.mpr (by omega)
      · exact ih (List.Pairwise.sublist (List.sublist_cons_self _ _) hsorted) h i' j' hmem
          ⟨hij', hj'n, hsum'⟩

/-- Inverting a successful brute-force run: the guard passed and the outer
scan produced exactly the returned pair. -/
theorem twoSum_eq_pair (nums : List Int) (target : Int) (i j : Nat)
    (h : twoSum nums target = [i, j]) :
    ¬ nums.length < 2 ∧
      outerScan nums target (List.range (nums.length - 1)) = some (i, j) := by
  unfold twoSum at h
  by_cases hlen : nums.length < 2
  · rw [if_pos hlen] at h; cases h
  · rw [if_neg hlen] at h
    refine ⟨hlen, ?_⟩
    cases ho : outerScan nums target (List.range (nums.length - 1)) with
    | none => rw [ho] at h; cases h
    | some p =>
      obtain ⟨i0, j0⟩ := p
      rw [ho] at h
      cases h
      rfl

/-! ### The state-threaded runs leave the sequence unchanged -/

theorem innerScanSt_eq (target : Int) (i : Nat) (js : List Nat) (s : List Int) :
    innerScanSt target i js s = (innerScan s target i js, s) := by
  induction js with
  | nil => rfl
  | cons j0 js ih =>
    rw [innerScanSt, innerScan]
    dsimp only [readNth]
    by_cases hc : s.getD i 0 + s.getD j0 0 = target
    · rw [if_pos hc, if_pos hc]
    · rw [if_neg hc, if_neg hc]
      exact ih

theorem outerScanSt_eq (target : Int) (is : List Nat) (s : List Int) :
    outerScanSt target is s = (outerScan s target is, s) := by
  induction is with
  | nil => rfl
  | cons i0 is ih =>
    rw [outerScanSt, outerScan, innerScanSt_eq]
    cases innerScan s target i0 (List.range' (i0 + 1) (s.length - (i0 + 1))) with
    | some j => rfl
    | none => exact ih

theorem twoSum2AuxSt_eq (target : Int) (is : List Nat) :
    ∀ (cache : List (Int × Nat)) (s : List Int),
      twoSum2AuxSt target is cache s = (twoSum2Aux s target is cache, s) := by
  induction is with
  | nil => intro cache s; rfl
  | cons i0 is ih =>
    intro cache s
    rw [twoSum2AuxSt, twoSum2Aux]
    dsimp only [readNth]
    cases mapFind cache (target - s.getD i0 0) with
    | some idx => rfl
    | none => exact ih _ _

/-! ### The checked runs never hit the out-of-bounds branch -/

theorem innerScanC_eq (nums : List Int) (target : Int) (i : Nat) (js : List Nat)
    (hi : i < nums.length) (hjs : ∀ j ∈ js, j < nums.length) :
    innerScanC nums target i js = some (innerScan nums target i js) := by
  induction js with
  | nil => rfl
  | cons j0 js ih =>
    have hj0 : j0 < nums.length := hjs j0 (List.mem_cons_self _ _)
    rw [innerScanC, innerScan, List.getElem?_eq_getElem hi,
      List.getElem?_eq_getElem hj0]
    dsimp only
    rw [List.getD_eq_getElem nums 0 hi, List.getD_eq_getElem nums 0 hj0]
    by_cases hc : nums[i] + nums[j0] = target
    · rw [if_pos hc, if_pos hc]
    · rw [if_neg hc, if_neg hc]
      exact ih (fun j hj => hjs j (List.mem_cons_of_mem _ hj))

theorem outerScanC_eq (nums : List Int) (target : Int) (is : List Nat)
    (his : ∀ i ∈ is, i < nums.length - 1) :
    outerScanC nums target is = some (outerScan nums target is) := by
  induction is with
  | nil => rfl
  | cons i0 is ih =>
    have hi0 : i0 < nums.length - 1 := his i0 (List.mem_cons_self _ _)
    have hjs : ∀ j ∈ List.range' (i0 + 1) (nums.length - (i0 + 1)),
        j < nums.length := by
      intro j hj
      have := List.mem_range'_1.mp hj
      omega
    rw [outerScanC, outerScan, innerScanC_eq nums target i0 _ (by omega) hjs]
    cases innerScan nums target i0 (List.range' (i0 + 1) (nums.length - (i0 + 1))) with
    | some j => rfl
    | none => exact ih (fun i hi => his i (List.mem_cons_of_mem _ hi))

theorem twoSumChecked_eq (nums : List Int) (target : Int) :
    twoSumChecked nums target = some (twoSum nums target) := by
  unfold twoSumChecked twoSum
  by_cases hlen : nums.length < 2
  · rw [if_pos hlen, if_pos hlen]
  · rw [if_neg hlen, if_neg hlen,
      outerScanC_eq nums target _ (fun i hi => List.mem_range.mp hi)]
    cases outerScan nums target (List.range (nums.length - 1)) with
    | some p => obtain ⟨i, j⟩ := p; rfl
    | none => rfl

theorem twoSum2AuxC_eq (nums : List Int) (target : Int) (is : List Nat) :
    ∀ cache : List (Int × Nat), (∀ i ∈ is, i < nums.length) →
      twoSum2AuxC nums target is cache = some (twoSum2Aux nums target is cache) := by
  induction is with
  | nil => intro cache _; rfl
  | cons i0 is ih =>
    intro cache hb
    have hi0 : i0 < nums.length := hb i0 (List.mem_cons_self _ _)
    rw [twoSum2AuxC, twoSum2Aux, List.getElem?_eq_getElem hi0]
    dsimp only
    rw [← List.getD_eq_getElem nums 0 hi0]
    cases mapFind cache (target - nums.getD i0 0) with
    | some idx => rfl
    | none => exact ih _ (fun i hi => hb i (List.mem_cons_of_mem _ hi))

theorem twoSum2Checked_eq (nums : List Int) (target : Int) :
    twoSum2Checked nums target = some (twoSum2 nums target) := by
  unfold twoSum2Checked twoSum2
  by_cases hlen : nums.length < 2
  · rw [if_pos hlen, if_pos hlen]
  · rw [if_neg hlen, if_neg hlen,
      twoSum2AuxC_eq nums target _ [] (fun i hi => List.mem_range.mp hi)]

/-! ### Canonical shape of the indexed scan's answer

While scanning position `s`, the cache maps exactly the values seen at
positions `< s` to their first occurrence index, and no completing pair has
been seen so far.  From this, a returned pair `(i, j)` has `j` minimal among
positions completed by an earlier partner and `i` minimal among earlier
partners of `j`. -/

theorem twoSum2Aux_canonical (nums : List Int) (target : Int) :
    ∀ (cnt s : Nat) (cache : List (Int × Nat)) (i j : Nat),
      (∀ key idx, mapFind cache key = some idx →
        idx < s ∧ nums.getD idx 0 = key ∧ ∀ k, k < idx → nums.getD k 0 ≠ key) →
      (∀ k, k < s → (mapFind cache (nums.getD k 0)).isSome) →
      (∀ j' k, j' < s → k < j' → nums.getD k 0 + nums.getD j' 0 ≠ target) →
      twoSum2Aux nums target (List.range' s cnt) cache = [i, j] →
      i < j ∧ nums.getD i 0 + nums.getD j 0 = target ∧
        (∀ j' k, j' < j → k < j' → nums.getD k 0 + nums.getD j' 0 ≠ target) ∧
        (∀ k, k < i → nums.getD k 0 + nums.getD j 0 ≠ target) := by
  intro cnt
  induction cnt with
  | zero => intro s cache i j _ _ _ h; simp [twoSum2Aux] at h
  | succ cnt ih =>
    intro s cache i j hinv1 hinv2 hup h
    rw [List.range'_succ, twoSum2Aux] at h
    cases hf : mapFind cache (target - nums.getD s 0) with
    | some idx =>
      rw [hf] at h
      cases h
      obtain ⟨hlt, hval, hfirst⟩ := hinv1 _ _ hf
      refine ⟨hlt, by omega, fun j' k hj' hk => hup j' k hj' hk, ?_⟩
      intro k hk hsum
      exact hfirst k hk (by omega)
    | none =>
      rw [hf] at h
      have hnotearlier : ∀ k, k < s → nums.getD k 0 + nums.getD s 0 ≠ target := by
        intro k hk hsum
        have hsome := hinv2 k hk
        have hkey : nums.getD k 0 = target - nums.getD s 0 := by omega
        rw [hkey, hf] at hsome
        simp at hsome
      refine ih (s + 1) (mapEmplace cache (nums.getD s 0) s) i j ?_ ?_ ?_ h
      · intro key idx hkey
        unfold mapEmplace at hkey
        by_cases hnum : (mapFind cache (nums.getD s 0)).isSome = true
        · rw [if_pos hnum] at hkey
          obtain ⟨h1, h2, h3⟩ := hinv1 _ _ hkey
          exact ⟨by omega, h2, h3⟩
        · rw [if_neg hnum, mapFind_cons] at hkey
          dsimp only at hkey
          by_cases hk : nums.getD s 0 = key
          · rw [if_pos hk] at hkey
            cases hkey
            refine ⟨by omega, hk, ?_⟩
            intro k hk' hkv
            have hsome := hinv2 k hk'
            rw [hkv, ← hk] at hsome
            exact hnum hsome
          · rw [if_neg hk] at hkey
            obtain ⟨h1, h2, h3⟩ := hinv1 _ _ hkey
            exact ⟨by omega, h2, h3⟩
      · intro k hk
        have : k < s ∨ k = s := by omega
        rcases this with hk' | rfl
        · exact mapFind_emplace_isSome _ _ _ _ (hinv2 k hk')
        · exact mapFind_emplace_self_isSome _ _ _
      · intro j' k hj' hk
        have : j' < s ∨ j' = s := by omega
        rcases this with h' | rfl
        · exact hup j' k h' hk
        · exact hnotearlier k hk

end TwoSum

namespace TwoSum

/-- C2: each operation returns a non-empty result exactly when some pair of
distinct positions sums to the target: if a solution exists the operation
returns a valid matching pair, and if no pair sums to the target it returns
the empty result. -/
theorem claim_C2_exists_iff_nonempty (nums : List Int) (target : Int) :
    ((∃ i j, IsPair nums target i j) →
      (∃ i j, twoSum nums target = [i, j] ∧ IsPair nums target i j) ∧
      (∃ i j, twoSum2 nums target = [i, j] ∧ IsPair nums target i j)) ∧
    ((¬ ∃ i j, IsPair nums target i j) →
      twoSum nums target = [] ∧ twoSum2 nums target = []) := by
  constructor
  · intro hex
    constructor
    · have hne := (twoSum_ne_nil_iff nums target).mpr hex
      rcases twoSum_shape nums target with hnil | ⟨i, j, hij⟩
      · exact absurd hnil hne
      · exact ⟨i, j, hij, twoSum_sound nums target i j hij⟩
    · have hne := (twoSum2_ne_nil_iff nums target).mpr hex
      rcases twoSum2_shape nums target with hnil | ⟨i, j, hij⟩
      · exact absurd hnil hne
      · exact ⟨i, j, hij, twoSum2_sound nums target i j hij⟩
  · intro hnone
    constructor
    · by_contra hne
      exact hnone ((twoSum_ne_nil_iff nums target).mp hne)
    · by_contra hne
      exact hnone ((twoSum2_ne_nil_iff nums target).mp hne)

/-- Witness for C2 at `nums = [1, 2, 3, 4]`, `target = 5` (a solvable
instance: positions 0 and 3 sum to 5). -/
theorem claim_C2_exists_iff_nonempty_witness :
    (∃ i j, twoSum [1, 2, 3, 4] 5 = [i, j] ∧ IsPair [1, 2, 3, 4] 5 i j) ∧
    (∃ i j, twoSum2 [1, 2, 3, 4] 5 = [i, j] ∧ IsPair [1, 2, 3, 4] 5 i j) :=
  (claim_C2_exists_iff_nonempty [1, 2, 3, 4] 5).1 ⟨0, 3, by decide⟩

/-- C3: on every solvable instance the brute-force scan returns the
lexicographically smallest valid pair (it scans `(i, j)` in row-major
order and stops at the first hit). -/
theorem claim_C3_brute_lex_smallest (nums : List Int) (target : Int)
    (hex : ∃ i j, IsPair nums target i j) :
    ∃ i j, twoSum nums target = [i, j] ∧ IsPair nums target i j ∧
      ∀ i' j', IsPair nums target i' j' → i < i' ∨ (i = i' ∧ j ≤ j') := by
  have hne := (twoSum_ne_nil_iff nums target).mpr hex
  rcases twoSum_shape nums target with hnil | ⟨i, j, hij⟩
  · exact absurd hnil hne
  · refine ⟨i, j, hij, twoSum_sound nums target i j hij, ?_⟩
    intro i' j' hp
    obtain ⟨hlen, ho⟩ := twoSum_eq_pair nums target i j hij
    refine outerScan_min nums target _ i j (List.pairwise_lt_range _) ho i' j' ?_ hp
    obtain ⟨h1, h2, _⟩ := hp
    exact List.mem_range.mpr (by omega)

/-- Witness for C3 at `nums = [1, 2, 3, 4]`, `target = 5`: two valid pairs
exist, `(0, 3)` and `(1, 2)`, and the brute-force scan returns `(0, 3)`,
the lexicographically smaller one. -/
theorem claim_C3_brute_lex_smallest_witness :
    ∃ i j, twoSum [1, 2, 3, 4] 5 = [i, j] ∧ IsPair [1, 2, 3, 4] 5 i j ∧
      ∀ i' j', IsPair [1, 2, 3, 4] 5 i' j' → i < i' ∨ (i = i' ∧ j ≤ j') :=
  claim_C3_brute_lex_smallest [1, 2, 3, 4] 5 ⟨1, 2, by decide⟩

/-- C4: the two operations agree on the existence of a solution — the
brute-force result is non-empty exactly when the indexed result is. -/
theorem claim_C4_existence_agreement (nums : List Int) (target : Int) :
    twoSum nums target ≠ [] ↔ twoSum2 nums target ≠ [] := by
  rw [twoSum_ne_nil_iff, twoSum2_ne_nil_iff]

/-- C1: for every sequence and target, if either operation returns a pair
`(i, j)` then `i < j` (in particular `i ≠ j`), both indices are in bounds,
and `nums[i] + nums[j] = target`. -/
theorem claim_C1_returned_pair_valid (nums : List Int) (target : Int) (i j : Nat) :
    (twoSum nums target = [i, j] →
      i < j ∧ i ≠ j ∧ i < nums.length ∧ j < nums.length ∧
        nums.getD i 0 + nums.getD j 0 = target) ∧
    (twoSum2 nums target = [i, j] →
      i < j ∧ i ≠ j ∧ i < nums.length ∧ j < nums.length ∧
        nums.getD i 0 + nums.getD j 0 = target) := by
  constructor
  · intro h
    obtain ⟨h1, h2, h3⟩ := twoSum_sound nums target i j h
    exact ⟨h1, Nat.ne_of_lt h1, Nat.lt_trans h1 h2, h2, h3⟩
  · intro h
    obtain ⟨h1, h2, h3⟩ := twoSum2_sound nums target i j h
    exact ⟨h1, Nat.ne_of_lt h1, Nat.lt_trans h1 h2, h2, h3⟩

/-- Witness for C1 at the concrete input `nums = [2, 7, 11, 15]`,
`target = 9`, where `twoSum` returns `[0, 1]`. -/
theorem claim_C1_returned_pair_valid_witness :
    (0 : Nat) < 1 ∧ (0 : Nat) ≠ 1 ∧ 0 < ([2, 7, 11, 15] : List Int).length ∧
      1 < ([2, 7, 11, 15] : List Int).length ∧
      ([2, 7, 11, 15] : List Int).getD 0 0 + ([2, 7, 11, 15] : List Int).getD 1 0 = 9 :=
  (claim_C1_returned_pair_valid [2, 7, 11, 15] 9 0 1).1 rfl

/-- C6: for every sequence of length < 2 and every target, both operations
return the empty result (the "input too short" case is surfaced as the
empty result, not as a distinguished error kind). -/
theorem claim_C6_short_input_empty (nums : List Int) (target : Int)
    (h : nums.length < 2) :
    twoSum nums target = [] ∧ twoSum2 nums target = [] := by
  constructor <;> simp [twoSum, twoSum2, h]

/-- Witness for C6 at the concrete input `nums = [1]`, `target = 1`. -/
theorem claim_C6_short_input_empty_witness :
    twoSum [(1 : Int)] 1 = [] ∧ twoSum2 [(1 : Int)] 1 = [] :=
  claim_C6_short_input_empty [(1 : Int)] 1 (by decide)

/-- C5: the indexed scan follows exactly the specified step behaviour:
at position `i` with value `v`, a cache hit on `target - v` immediately
returns `(cache[target - v], i)`; otherwise `(v, i)` is inserted only when
`v` is not already a key (so the earliest index of a repeated value is
retained); consequently a returned pair always satisfies `i < j`, so an
equal-valued pair is matched as (earlier index, later index) and an index
is never matched with itself. -/
theorem claim_C5_step_behaviour :
    (∀ (nums : List Int) (target : Int) (i : Nat) (is : List Nat)
        (cache : List (Int × Nat)) (idx : Nat),
        mapFind cache (target - nums.getD i 0) = some idx →
        twoSum2Aux nums target (i :: is) cache = [idx, i]) ∧
    (∀ (nums : List Int) (target : Int) (i : Nat) (is : List Nat)
        (cache : List (Int × Nat)),
        mapFind cache (target - nums.getD i 0) = none →
        twoSum2Aux nums target (i :: is) cache =
          twoSum2Aux nums target is (mapEmplace cache (nums.getD i 0) i)) ∧
    (∀ (cache : List (Int × Nat)) (k : Int) (v : Nat),
        (mapFind cache k).isSome → mapEmplace cache k v = cache) ∧
    (∀ (cache : List (Int × Nat)) (k : Int) (v : Nat),
        mapFind cache k = none → mapFind (mapEmplace cache k v) k = some v) ∧
    (∀ (nums : List Int) (target : Int) (i j : Nat),
        twoSum2 nums target = [i, j] → i < j) := by
  refine ⟨?_, ?_, ?_, ?_, ?_⟩
  · intro nums target i is cache idx hf
    rw [twoSum2Aux, hf]
  · intro nums target i is cache hf
    rw [twoSum2Aux, hf]
  · intro cache k v h
    unfold mapEmplace
    rw [if_pos h]
  · intro cache k v h
    unfold mapEmplace
    rw [if_neg (by rw [h]; simp), mapFind_cons, if_pos rfl]
  · intro nums target i j h
    exact (twoSum2_sound nums target i j h).1

/-- Witness for C5 on the equal-valued scenario `nums = [3, 3]`,
`target = 6`: at position 1 the cache holds `(3, 0)`, the lookup of
`6 - 3` hits, and the pair `(0, 1)` is returned — earlier index first. -/
theorem claim_C5_step_behaviour_witness :
    twoSum2Aux [3, 3] 6 [1] [(3, 0)] = [0, 1] ∧ (0 : Nat) < 1 :=
  ⟨claim_C5_step_behaviour.1 [3, 3] 6 1 [] [(3, 0)] 0 rfl,
   claim_C5_step_behaviour.2.2.2.2 [3, 3] 6 0 1 rfl⟩

/-- C8: both operations are pure with respect to the input sequence: the
state-threaded runs (which model every `operator[]` access on the
by-reference vector) return the sequence unchanged, and the result is the
deterministic pure function of the sequence and target alone. -/
theorem claim_C8_pure_in_sequence (nums : List Int) (target : Int) :
    twoSumSt nums target = (twoSum nums target, nums) ∧
    twoSum2St nums target = (twoSum2 nums target, nums) := by
  constructor
  · unfold twoSumSt twoSum
    by_cases hlen : nums.length < 2
    · rw [if_pos hlen, if_pos hlen]
    · rw [if_neg hlen, if_neg hlen, outerScanSt_eq]
      cases outerScan nums target (List.range (nums.length - 1)) with
      | some p => obtain ⟨i, j⟩ := p; rfl
      | none => rfl
  · unfold twoSum2St twoSum2
    by_cases hlen : nums.length < 2
    · rw [if_pos hlen, if_pos hlen]
    · rw [if_neg hlen, if_neg hlen, twoSum2AuxSt_eq]

/-- C9: a pair `(i, j)` returned by the indexed scan is canonical: `j` is
the smallest position completed by some earlier partner, and `i` is the
smallest index `k < j` with `nums[k] + nums[j] = target` (the first
occurrence of the partner value). -/
theorem claim_C9_indexed_canonical_pair (nums : List Int) (target : Int) (i j : Nat)
    (h : twoSum2 nums target = [i, j]) :
    i < j ∧ j < nums.length ∧ nums.getD i 0 + nums.getD j 0 = target ∧
      (∀ j', (∃ k, k < j' ∧ nums.getD k 0 + nums.getD j' 0 = target) → j ≤ j') ∧
      (∀ k, k < j → nums.getD k 0 + nums.getD j 0 = target → i ≤ k) := by
  have hsound := twoSum2_sound nums target i j h
  unfold twoSum2 at h
  by_cases hlen : nums.length < 2
  · rw [if_pos hlen] at h; cases h
  · rw [if_neg hlen, List.range_eq_range'] at h
    obtain ⟨hij, hsum, hjmin, himin⟩ :=
      twoSum2Aux_canonical nums target nums.length 0 [] i j
        (fun key idx hk => by simp [mapFind] at hk)
        (fun k hk => absurd hk (Nat.not_lt_zero k))
        (fun j' k hj' _ => absurd hj' (Nat.not_lt_zero j'))
        h
    refine ⟨hij, hsound.2.1, hsum, ?_, ?_⟩
    · rintro j' ⟨k, hk, hsum'⟩
      by_contra hlt
      exact hjmin j' k (by omega) hk hsum'
    · intro k hk hsum'
      by_contra hlt
      exact himin k (by omega) hsum'

/-- Witness for C9 at `nums = [3, 2, 4]`, `target = 6`, where the indexed
scan returns the pair `(1, 2)`. -/
theorem claim_C9_indexed_canonical_pair_witness :
    (1 : Nat) < 2 ∧ 2 < ([3, 2, 4] : List Int).length ∧
      ([3, 2, 4] : List Int).getD 1 0 + ([3, 2, 4] : List Int).getD 2 0 = 6 ∧
      (∀ j', (∃ k, k < j' ∧
        ([3, 2, 4] : List Int).getD k 0 + ([3, 2, 4] : List Int).getD j' 0 = 6) →
        2 ≤ j') ∧
      (∀ k, k < 2 →
        ([3, 2, 4] : List Int).getD k 0 + ([3, 2, 4] : List Int).getD 2 0 = 6 →
        1 ≤ k) :=
  claim_C9_indexed_canonical_pair [3, 2, 4] 6 1 2 rfl

/-- C10: every element access either operation performs is in bounds — the
`Option`-checked runs never hit the out-of-bounds branch and equal `some`
of the unchecked runs — and under the `size ≥ 2` guard the loop bound
`nums.size() - 1` of the brute-force variant does not underflow (the
truncated subtraction is exact). -/
theorem claim_C10_accesses_in_bounds (nums : List Int) (target : Int) :
    twoSumChecked nums target = some (twoSum nums target) ∧
    twoSum2Checked nums target = some (twoSum2 nums target) ∧
    (2 ≤ nums.length → nums.length - 1 + 1 = nums.length) := by
  exact ⟨twoSumChecked_eq nums target, twoSum2Checked_eq nums target, by omega⟩

/-- Witness for C10 at `nums = [5, 5]`, `target = 10`. -/
theorem claim_C10_accesses_in_bounds_witness :
    twoSumChecked [5, 5] 10 = some (twoSum [5, 5] 10) ∧
      ([5, 5] : List Int).length - 1 + 1 = ([5, 5] : List Int).length :=
  ⟨(claim_C10_accesses_in_bounds [5, 5] 10).1,
   (claim_C10_accesses_in_bounds [5, 5] 10).2.2 (by decide)⟩

/-- C7: on the five concrete scenarios both operations produce exactly the
stated results — `[2,7,11,15]`, target 9 ↦ `(0,1)`; `[3,2,4]`, target 6 ↦
`(1,2)`; `[3,3]`, target 6 ↦ `(0,1)`; `[1]`, target 1 ↦ empty; `[1,2,3]`,
target 100 ↦ empty — in particular every assertion in `checkSolution`
(which checks `twoSum2` on the first three scenarios) holds. -/
theorem claim_C7_concrete_scenarios :
    (twoSum [2, 7, 11, 15] 9 = [0, 1] ∧ twoSum2 [2, 7, 11, 15] 9 = [0, 1]) ∧
    (twoSum [3, 2, 4] 6 = [1, 2] ∧ twoSum2 [3, 2, 4] 6 = [1, 2]) ∧
    (twoSum [3, 3] 6 = [0, 1] ∧ twoSum2 [3, 3] 6 = [0, 1]) ∧
    (twoSum [1] 1 = [] ∧ twoSum2 [1] 1 = []) ∧
    (twoSum [1, 2, 3] 100 = [] ∧ twoSum2 [1, 2, 3] 100 = []) := by
  refine ⟨⟨?_, ?_⟩, ⟨?_, ?_⟩, ⟨?_, ?_⟩, ⟨?_, ?_⟩, ⟨?_, ?_⟩⟩ <;> rfl

end TwoSum
